import Mathlib

/-!
Verification of the quiz-question generator of the comp201 learning platform.

The Python sources embedded here:
* `src/src/quiz.py` — data model (`Flashcard`, `QuizQuestion`), `list_topics`,
  `_collect_distractors_for_flashcard`, `generate_quiz_questions`;
* `src/pages/Quiz.py` — the attempt state machine (`submit_answer`);
* `src/pages/Flashcards.py` — the page-local `list_topics`.

Randomness: the Python code uses the global `random` module (Mersenne
Twister).  We model the generator state abstractly as `Rng`, a pure state
threaded through every randomized step; `random.seed(s)` is `mkRng s`,
`random.shuffle` is a Fisher–Yates-style permutation driven by draws from
the state, and `random.sample(pool, k)` is "take `k` from a permutation"
(its documented contract: `k` distinct elements chosen without
replacement).  The exact Mersenne Twister stream is not reproduced; every
property proved below is independent of which permutation the stream
selects, and the theorems quantify over all states.
-/

/-- Abstract state of Python's global `random` generator.  A simple
linear-congruential word models the evolving internal state. -/
structure Rng where
  state : Nat
deriving DecidableEq, Repr

/-- One draw from the generator: next state and a raw value. -/
def Rng.next (g : Rng) : Nat × Rng :=
  let s := (g.state * 1103515245 + 12345) % 2147483648
  (s, ⟨s⟩)

/-- Model of `random.seed(seed)`: reset the global generator to a state derived
solely from `seed`. -/
def mkRng (seed : Int) : Rng :=
  ⟨(seed % 2147483648).toNat⟩

/-- A draw reduced below a bound (used to pick indices). -/
def randBelow (g : Rng) (n : Nat) : Nat × Rng :=
  ((g.next).1 % n, (g.next).2)

/-- Fisher–Yates-style shuffle: repeatedly pick a position of the
remaining list (an index drawn from the generator) and move that element
to the front.  `fuel` is the number of picks, set to the length by
`shuffleL`; any permutation can be produced, depending on the state. -/
def shuffleGo {α : Type} : Nat → List α → Rng → List α × Rng
  | 0, l, g => (l, g)
  | fuel+1, l, g =>
    if h : l.length = 0 then (l, g)
    else
      let j := (randBelow g l.length).1 % l.length
      let g' := (randBelow g l.length).2
      have hj : j < l.length := Nat.mod_lt _ (Nat.pos_of_ne_zero h)
      ((l.get ⟨j, hj⟩) :: (shuffleGo fuel (l.eraseIdx j) g').1,
       (shuffleGo fuel (l.eraseIdx j) g').2)

/-- Model of `random.shuffle(l)`: the permuted list together with the
generator state after the shuffle. -/
def shuffleL {α : Type} (l : List α) (g : Rng) : List α × Rng :=
  shuffleGo l.length l g

/-- Model of `random.sample(l, k)`: `k` elements chosen without
replacement, i.e. a prefix of a permutation of `l`. -/
def sampleL {α : Type} (l : List α) (k : Nat) (g : Rng) : List α × Rng :=
  ((shuffleL l g).1.take k, (shuffleL l g).2)

theorem perm_get_cons_eraseIdx {α : Type} :
    ∀ (l : List α) (i : Nat) (h : i < l.length),
      List.Perm l (l.get ⟨i, h⟩ :: l.eraseIdx i)
  | a :: t, 0, _ => by simp
  | a :: t, i+1, h => by
    have ht : i < t.length := by simpa using h
    have ih := perm_get_cons_eraseIdx t i ht
    have h1 : List.Perm (a :: t) (a :: (t.get ⟨i, ht⟩ :: t.eraseIdx i)) :=
      List.Perm.cons a ih
    have h2 : List.Perm (a :: (t.get ⟨i, ht⟩ :: t.eraseIdx i))
        (t.get ⟨i, ht⟩ :: a :: t.eraseIdx i) := List.Perm.swap _ _ _
    simpa using List.Perm.trans h1 h2

theorem shuffleGo_perm {α : Type} :
    ∀ (fuel : Nat) (l : List α) (g : Rng), List.Perm (shuffleGo fuel l g).1 l := by
  intro fuel
  induction fuel with
  | zero => intro l g; exact List.Perm.refl l
  | succ fuel ih =>
    intro l g
    by_cases h : l.length = 0
    · simp [shuffleGo, h]
    · simp only [shuffleGo, h, dif_neg, not_false_iff]
      have hj : (randBelow g l.length).1 % l.length < l.length :=
        Nat.mod_lt _ (Nat.pos_of_ne_zero h)
      exact List.Perm.trans
        (List.Perm.cons _ (ih _ _))
        (perm_get_cons_eraseIdx l _ hj).symm

theorem shuffleL_perm {α : Type} (l : List α) (g : Rng) :
    List.Perm (shuffleL l g).1 l :=
  shuffleGo_perm l.length l g

/-! ### Data model (src/src/quiz.py lines 10-38)

Python's `Optional` fields default to `None`; `Flashcard.from_dict`
substitutes `[]` for missing `tags`/`distractors`, and the generator
treats `None` and `[]` distractors identically (`if flashcard.distractors:`
is false for both), so `distractors` is embedded as a plain list with `[]`
for "absent".  Missing string fields default to `""`. -/

structure Flashcard where
  id : String
  topic : String
  prompt : String
  answer : String
  difficulty : Option String := none
  tags : List String := []
  distractors : List String := []
deriving DecidableEq, Repr, Inhabited

structure QuizQuestion where
  flashcard_id : String
  prompt : String
  options : List String
  correct_answer : String
deriving DecidableEq, Repr, Inhabited

/-- Embedding of `list_topics` (src/src/quiz.py lines 65-67):
`sorted({fc.topic for fc in flashcards if fc.topic})` — the set of
non-empty topics, as a sorted list.  The set comprehension is embedded as
`dedup` of the topic list (which copy of a duplicated value survives is
irrelevant once sorted). -/
def list_topics (flashcards : List Flashcard) : List String :=
  (((flashcards.filter (fun fc => fc.topic != "")).map (fun fc => fc.topic)).dedup).mergeSort
    (fun a b => decide (a ≤ b))

/-- Step 1 of `_collect_distractors_for_flashcard` (src/src/quiz.py
lines 85-91): walk the card's own `distractors` in order, keeping entries
that are non-empty (`if d`), differ from the correct answer and are not
already collected.  `Sum.inl` is the early `return distractors_set[:num]`
taken as soon as `num` are collected; `Sum.inr` is falling through to the
pools with the partial accumulator. -/
def explicitLoop (answer : String) (num : Nat) :
    List String → List String → List String ⊕ List String
  | [], acc => Sum.inr acc
  | d :: rest, acc =>
    if d ≠ "" ∧ d ≠ answer ∧ d ∉ acc then
      let acc' := acc ++ [d]
      if num ≤ acc'.length then Sum.inl (acc'.take num)
      else explicitLoop answer num rest acc'
    else explicitLoop answer num rest acc

/-- The collection loop of `pull_from_pool` (src/src/quiz.py lines 98-102):
append unseen candidates until `num` are held (the Python `return` inside
the loop is the `a.length < num` guard). -/
def pullCollect (num : Nat) (acc : List String) (cands : List String) : List String :=
  cands.foldl (fun a c => if a.length < num ∧ c ∉ a then a ++ [c] else a) acc

/-- Embedding of `pull_from_pool` (src/src/quiz.py lines 94-102): candidate answers are
the non-empty pool answers different from the correct answer, shuffled,
then collected up to `num`. -/
def pullFromPool (answer : String) (num : Nat) (pool : List Flashcard)
    (acc : List String) (g : Rng) : List String × Rng :=
  let candidates := (pool.filter (fun p => p.answer != "" && p.answer != answer)).map
    (fun p => p.answer)
  ((pullCollect num acc (shuffleL candidates g).1), (shuffleL candidates g).2)

/-- The synthetic filler label: Python's `f"Option {k}"`. -/
def optionLabel (k : Nat) : String := "Option " ++ Nat.repr k

/-- One fuelled pass of the filler `while` loops (src/src/quiz.py
lines 112-119 and 184-190): while fewer than `target` strings are held,
try `"Option k"` for `k = counter, counter+1, ...`, appending it when it
differs from the correct answer and is not already held. -/
def fillerGo (target : Nat) (avoid : String) : Nat → List String → Nat → List String
  | 0, acc, _ => acc
  | fuel+1, acc, counter =>
    if acc.length < target then
      fillerGo target avoid fuel
        (if optionLabel counter ≠ avoid ∧ optionLabel counter ∉ acc then
          acc ++ [optionLabel counter]
        else acc)
        (counter + 1)
      else acc

/-- The filler `while` loop with its fuel fixed at a bound proved
sufficient below (`fillerPad_spec`): the loop terminates because the
labels `"Option k"` are pairwise distinct, so at most `acc.length + 1` of
them can collide with the held strings or the answer. -/
def fillerPad (target : Nat) (avoid : String) (acc : List String) (counter : Nat) : List String :=
  fillerGo target avoid (target + acc.length + 1) acc counter

/-- Embedding of `_collect_distractors_for_flashcard` (src/src/quiz.py lines 70-121):
author-supplied distractors first (early return when they suffice), then
the same-topic pool, then the global pool, then synthetic filler; finally
`distractors_set[:num]`. -/
def collect_distractors_for_flashcard (fc : Flashcard)
    (same_topic_pool global_pool : List Flashcard) (num : Nat) (g : Rng) :
    List String × Rng :=
  match explicitLoop fc.answer num fc.distractors [] with
  | Sum.inl full => (full, g)
  | Sum.inr acc0 =>
    let r1 := pullFromPool fc.answer num same_topic_pool acc0 g
    let r2 := if r1.1.length < num then pullFromPool fc.answer num global_pool r1.1 r1.2
      else r1
    let acc3 := if r2.1.length < num then fillerPad num fc.answer r2.1 1 else r2.1
    (acc3.take num, r2.2)

/-- The option-assembly fold (src/src/quiz.py lines 167-171): start from
`[fc.answer]` and append each distractor not already present. -/
def assembleOptions (answer : String) (ds : List String) : List String :=
  ds.foldl (fun a d => if d ∉ a then a ++ [d] else a) [answer]

/-- The `< 4` fallback fill (src/src/quiz.py lines 177-180): append
shuffled extra candidates unconditionally until 4 options are held. -/
def fillExtra (options : List String) (extra : List String) : List String :=
  extra.foldl (fun a ex => if a.length < 4 then a ++ [ex] else a) options

/-- Embedding of `list(dict.fromkeys(options))` (src/src/quiz.py line 183): dedup
keeping the first occurrence of each string. -/
def pyDedup (l : List String) : List String :=
  l.foldl (fun a x => if x ∈ a then a else a ++ [x]) []

/-- The body of the per-card loop of `generate_quiz_questions`
(src/src/quiz.py lines 161-200), with the same-topic pool already
computed: collect 3 distractors, assemble options behind the correct
answer, run the `< 4` global fallback, dedupe, pad, shuffle, and build the
`QuizQuestion`. -/
def buildQuestionFrom (fc : Flashcard) (same_topic_pool global_pool : List Flashcard)
    (g : Rng) : QuizQuestion × Rng :=
  let r1 := collect_distractors_for_flashcard fc same_topic_pool global_pool 3 g
  let options := assembleOptions fc.answer r1.1
  let r2 :=
    if options.length < 4 then
      let extraCandidates := (global_pool.filter
        (fun p => !(options.contains p.answer) && p.answer != fc.answer)).map
        (fun p => p.answer)
      ((fillExtra options (shuffleL extraCandidates r1.2).1), (shuffleL extraCandidates r1.2).2)
    else (options, r1.2)
  let finalOptions1 := fillerPad 4 fc.answer (pyDedup r2.1) 1
  ((⟨fc.id, fc.prompt, (shuffleL finalOptions1 r2.2).1, fc.answer⟩ : QuizQuestion),
   (shuffleL finalOptions1 r2.2).2)

/-- Per-card loop body including the `same_topic_pool` comprehension
(src/src/quiz.py line 163). -/
def buildQuestion (fc : Flashcard) (topic_pool global_pool : List Flashcard)
    (g : Rng) : QuizQuestion × Rng :=
  buildQuestionFrom fc (topic_pool.filter (fun x => x.id != fc.id)) global_pool g

/-- The `for fc in chosen` loop of `generate_quiz_questions`
(src/src/quiz.py lines 160-200), threading the generator state. -/
def questionsLoop (topic_pool global_pool : List Flashcard) :
    List Flashcard → Rng → List QuizQuestion × Rng
  | [], g => ([], g)
  | fc :: rest, g =>
    let r1 := buildQuestion fc topic_pool global_pool g
    ((r1.1 :: (questionsLoop topic_pool global_pool rest r1.2).1),
     (questionsLoop topic_pool global_pool rest r1.2).2)

/-- Embedding of `if seed is not None: random.seed(seed)` (src/src/quiz.py
lines 138-139): the generator state used for the run is derived from the
seed when one is given, otherwise the ambient global state is kept. -/
def seededRng (seed : Option Int) (g0 : Rng) : Rng :=
  match seed with
  | some s => mkRng s
  | none => g0

/-- Embedding of `generate_quiz_questions` (src/src/quiz.py lines 123-202).  `g0` is
the ambient global generator state; `random.seed(seed)` replaces it when a
seed is supplied.  `num_questions` is a count (the spec requires a
positive integer; a negative Python argument would raise in
`random.sample` and is outside the embedded domain). -/
def generate_quiz_questions (topic : String) (flashcards : List Flashcard)
    (num_questions : Nat) (seed : Option Int) (g0 : Rng) : List QuizQuestion × Rng :=
  let g := seededRng seed g0
  if flashcards = [] then ([], g)
  else
    let topic_pool := flashcards.filter (fun fc => fc.topic == topic)
    if topic_pool = [] then ([], g)
    else
      let sel :=
        if topic_pool.length ≤ num_questions then shuffleL topic_pool g
        else sampleL topic_pool num_questions g
      questionsLoop topic_pool flashcards sel.1 sel.2

/-! ### Invariants of distractor collection -/

/-- The invariant of `distractors_set`: no duplicates, and nothing equal
to the correct answer. -/
def GoodAcc (answer : String) (acc : List String) : Prop :=
  acc.Nodup ∧ ∀ d ∈ acc, d ≠ answer

theorem goodAcc_nil (answer : String) : GoodAcc answer [] :=
  ⟨List.nodup_nil, by intro d hd; cases hd⟩

theorem goodAcc_append (answer d : String) (acc : List String)
    (h : GoodAcc answer acc) (hd : d ≠ answer) (hmem : d ∉ acc) :
    GoodAcc answer (acc ++ [d]) := by
  constructor
  · simp [List.nodup_append, h.1, hmem]
  · intro x hx
    rcases List.mem_append.mp hx with hx | hx
    · exact h.2 x hx
    · simp at hx; subst hx; exact hd

theorem explicitLoop_spec (answer : String) (num : Nat) :
    ∀ (ds acc : List String), GoodAcc answer acc → acc.length < num →
      (∀ full, explicitLoop answer num ds acc = Sum.inl full →
        GoodAcc answer full ∧ full.length = num) ∧
      (∀ acc', explicitLoop answer num ds acc = Sum.inr acc' →
        GoodAcc answer acc' ∧ acc'.length < num) := by
  intro ds
  induction ds with
  | nil =>
    intro acc hg hlen
    refine ⟨fun full hfull => by simp [explicitLoop] at hfull,
      fun acc' hacc' => ?_⟩
    simp [explicitLoop] at hacc'
    subst hacc'; exact ⟨hg, hlen⟩
  | cons d rest ih =>
    intro acc hg hlen
    by_cases hc : d ≠ "" ∧ d ≠ answer ∧ d ∉ acc
    · have hg' : GoodAcc answer (acc ++ [d]) := goodAcc_append _ _ _ hg hc.2.1 hc.2.2
      by_cases hfull : num ≤ (acc ++ [d]).length
      · have hlen' : (acc ++ [d]).length = num := by
          simp at hfull ⊢; omega
        constructor
        · intro full h
          simp only [explicitLoop, if_pos hc, if_pos hfull] at h
          have : full = (acc ++ [d]).take num := by
            injection h with h'; exact h'.symm
          subst this
          rw [← hlen', List.take_length]
          exact ⟨hg', rfl⟩
        · intro acc' h
          simp only [explicitLoop, if_pos hc, if_pos hfull] at h
          exact absurd h (by simp)
      · have hlt' : (acc ++ [d]).length < num := Nat.lt_of_not_le hfull
        have := ih (acc ++ [d]) hg' hlt'
        constructor
        · intro full h
          simp only [explicitLoop, if_pos hc, if_neg hfull] at h
          exact this.1 full h
        · intro acc' h
          simp only [explicitLoop, if_pos hc, if_neg hfull] at h
          exact this.2 acc' h
    · have := ih acc hg hlen
      constructor
      · intro full h
        simp only [explicitLoop, if_neg hc] at h
        exact this.1 full h
      · intro acc' h
        simp only [explicitLoop, if_neg hc] at h
        exact this.2 acc' h

theorem explicitLoop_complete (answer : String) (num : Nat) :
    ∀ (ds acc : List String), ds ≠ [] → (acc ++ ds).length = num →
      (acc ++ ds).Nodup → (∀ d ∈ ds, d ≠ "" ∧ d ≠ answer) →
      explicitLoop answer num ds acc = Sum.inl (acc ++ ds) := by
  intro ds
  induction ds with
  | nil => intro acc h; exact absurd rfl h
  | cons d rest ih =>
    intro acc _ hlen hnd hgood
    have hd : d ≠ "" ∧ d ≠ answer := hgood d (List.mem_cons_self d rest)
    have hdacc : d ∉ acc := by
      intro hmem
      have := (List.nodup_append.mp hnd).2.2
      exact this hmem (List.mem_cons_self d rest)
    have hc : d ≠ "" ∧ d ≠ answer ∧ d ∉ acc := ⟨hd.1, hd.2, hdacc⟩
    by_cases hrest : rest = []
    · have hlen' : (acc ++ [d]).length = num := by
        subst hrest; simpa using hlen
      have hfull : num ≤ (acc ++ [d]).length := le_of_eq hlen'.symm
      simp only [explicitLoop, if_pos hc, if_pos hfull]
      subst hrest
      rw [← hlen', List.take_length]
    · have hrpos : 0 < rest.length := List.length_pos.mpr hrest
      have hfull : ¬ num ≤ (acc ++ [d]).length := by
        simp only [List.length_append, List.length_cons] at hlen ⊢
        simp; omega
      simp only [explicitLoop, if_pos hc, if_neg hfull]
      have h1 : (acc ++ [d]) ++ rest = acc ++ d :: rest := by simp
      rw [ih (acc ++ [d]) hrest (by rw [h1]; exact hlen)
        (by rw [h1]; exact hnd) (fun x hx => hgood x (List.mem_cons_of_mem d hx)), h1]

theorem pullCollect_spec (answer : String) (num : Nat) :
    ∀ (cands acc : List String), GoodAcc answer acc → acc.length ≤ num →
      (∀ c ∈ cands, c ≠ answer) →
      GoodAcc answer (pullCollect num acc cands) ∧ (pullCollect num acc cands).length ≤ num := by
  intro cands
  induction cands with
  | nil => intro acc hg hlen _; exact ⟨hg, hlen⟩
  | cons c cs ih =>
    intro acc hg hlen hc
    have hstep : pullCollect num acc (c :: cs)
        = pullCollect num (if acc.length < num ∧ c ∉ acc then acc ++ [c] else acc) cs := rfl
    rw [hstep]
    by_cases h : acc.length < num ∧ c ∉ acc
    · rw [if_pos h]
      exact ih (acc ++ [c])
        (goodAcc_append _ _ _ hg (hc c (List.mem_cons_self c cs)) h.2)
        (by simp; omega)
        (fun x hx => hc x (List.mem_cons_of_mem c hx))
    · rw [if_neg h]
      exact ih acc hg hlen (fun x hx => hc x (List.mem_cons_of_mem c hx))

theorem pullFromPool_spec (answer : String) (num : Nat) (pool : List Flashcard)
    (acc : List String) (g : Rng) (hg : GoodAcc answer acc) (hlen : acc.length ≤ num) :
    GoodAcc answer (pullFromPool answer num pool acc g).1 ∧
      (pullFromPool answer num pool acc g).1.length ≤ num := by
  have hcand : ∀ c ∈ (shuffleL ((pool.filter
      (fun p => p.answer != "" && p.answer != answer)).map (fun p => p.answer)) g).1,
      c ≠ answer := by
    intro c hcmem
    have hmem := (shuffleL_perm _ g).mem_iff.mp hcmem
    rcases List.mem_map.mp hmem with ⟨p, hp, hpc⟩
    have := List.of_mem_filter hp
    simp at this
    rw [← hpc]
    exact this.2
  exact pullCollect_spec answer num _ acc hg hlen hcand

/-! ### Injectivity of the filler labels

The filler loops terminate because the labels `"Option 1"`, `"Option 2"`,
… are pairwise distinct; this rests on the injectivity of `Nat.repr`,
proved here by folding the decimal digits back into the number. -/

def unreprStep (a : Nat) (c : Char) : Nat := a * 10 + (c.toNat - 48)

theorem digitChar_toNat : ∀ m, m < 10 → (Nat.digitChar m).toNat = 48 + m := by decide

def digitsLen (n : Nat) : Nat :=
  if n < 10 then 1 else digitsLen (n / 10) + 1
decreasing_by exact Nat.div_lt_self (by omega) (by omega)

theorem toDigitsCore_foldl :
    ∀ (fuel n : Nat) (ds : List Char) (a : Nat), n < fuel →
      List.foldl unreprStep a (Nat.toDigitsCore 10 fuel n ds)
        = List.foldl unreprStep (a * 10 ^ digitsLen n + n) ds := by
  intro fuel
  induction fuel with
  | zero => intro n ds a h; omega
  | succ fuel ih =>
    intro n ds a h
    by_cases hn : n / 10 = 0
    · have hlt : n < 10 := (Nat.div_eq_zero_iff (by omega)).mp hn
      have hmod : n % 10 = n := Nat.mod_eq_of_lt hlt
      have hdl : digitsLen n = 1 := by rw [digitsLen, if_pos hlt]
      simp only [Nat.toDigitsCore, hn, if_pos, List.foldl_cons]
      rw [hdl]
      have : unreprStep a (Nat.digitChar (n % 10)) = a * 10 ^ 1 + n := by
        rw [unreprStep, hmod, digitChar_toNat n hlt]
        ring_nf
        omega
      rw [this]
    · have hge : 10 ≤ n := by
        by_contra hlt
        exact hn (Nat.div_eq_of_lt (by omega))
      have hlt' : n / 10 < fuel := by
        have h1 : n / 10 < n := Nat.div_lt_self (by omega) (by omega)
        omega
      have hdl : digitsLen n = digitsLen (n / 10) + 1 := by
        rw [digitsLen, if_neg (by omega)]
      simp only [Nat.toDigitsCore, hn, if_neg, ite_false]
      rw [ih (n / 10) _ a hlt', List.foldl_cons]
      have : unreprStep (a * 10 ^ digitsLen (n / 10) + n / 10) (Nat.digitChar (n % 10))
          = a * 10 ^ digitsLen n + n := by
        rw [unreprStep, digitChar_toNat (n % 10) (Nat.mod_lt n (by omega)), hdl, pow_succ]
        have hdm : n / 10 * 10 + n % 10 = n := by
          rw [Nat.mul_comm]
          exact Nat.div_add_mod n 10
        ring_nf
        omega
      rw [this]

theorem unrepr_repr (n : Nat) : List.foldl unreprStep 0 (Nat.toDigits 10 n) = n := by
  rw [Nat.toDigits, toDigitsCore_foldl (n+1) n [] 0 (Nat.lt_succ_self n)]
  simp

theorem nat_repr_injective : Function.Injective Nat.repr := by
  intro m n h
  have hd : (Nat.toDigits 10 m) = (Nat.toDigits 10 n) := by
    have := congrArg String.data h
    simpa [Nat.repr, List.asString] using this
  have hm := unrepr_repr m
  rw [hd, unrepr_repr n] at hm
  exact hm.symm

theorem optionLabel_injective : Function.Injective optionLabel := by
  intro a b h
  have hd := congrArg String.data h
  simp only [optionLabel, String.data_append] at hd
  have h2 := List.append_cancel_left hd
  exact nat_repr_injective (String.ext h2)

/-- Number of indices in the window `[lo, lo+n)` whose filler label
already occurs in `B`. -/
def countColl (lo n : Nat) (B : List String) : Nat :=
  (List.range n).countP (fun i => decide (optionLabel (lo + i) ∈ B))

theorem countColl_zero (lo : Nat) (B : List String) : countColl lo 0 B = 0 := rfl

theorem countColl_succ (lo n : Nat) (B : List String) :
    countColl lo (n+1) B
      = (if optionLabel lo ∈ B then 1 else 0) + countColl (lo+1) n B := by
  unfold countColl
  rw [List.range_succ_eq_map]
  rw [List.countP_cons, List.countP_map]
  have h1 : ∀ i, ((fun i => decide (optionLabel (lo + i) ∈ B)) ∘ Nat.succ) i
      = (fun i => decide (optionLabel (lo + 1 + i) ∈ B)) i := by
    intro i
    simp only [Function.comp]
    have : lo + Nat.succ i = lo + 1 + i := by omega
    rw [this]
  rw [funext h1]
  simp only [Nat.add_zero]
  by_cases hmem : optionLabel lo ∈ B
  · simp [hmem, Nat.add_comm]
  · simp [hmem]

theorem countColl_le (lo n : Nat) (B : List String) : countColl lo n B ≤ B.length := by
  unfold countColl
  rw [List.countP_eq_length_filter]
  set l := (List.range n).filter (fun i => decide (optionLabel (lo + i) ∈ B)) with hl
  have hnd : l.Nodup := (List.nodup_range n).filter _
  have hinj : Function.Injective (fun i => optionLabel (lo + i)) := by
    intro x y hxy
    have := optionLabel_injective hxy
    omega
  have hmapnd : (l.map (fun i => optionLabel (lo + i))).Nodup := hnd.map hinj
  have hsub : ∀ s ∈ l.map (fun i => optionLabel (lo + i)), s ∈ B := by
    intro s hs
    rcases List.mem_map.mp hs with ⟨i, hi, hsi⟩
    have := List.of_mem_filter hi
    simp at this
    rw [← hsi]
    exact this
  have h1 : (l.map (fun i => optionLabel (lo + i))).toFinset.card
      = (l.map (fun i => optionLabel (lo + i))).length :=
    List.toFinset_card_of_nodup hmapnd
  have h2 : (l.map (fun i => optionLabel (lo + i))).toFinset ⊆ B.toFinset := by
    intro s hs
    rw [List.mem_toFinset] at hs ⊢
    exact hsub s hs
  have h3 := Finset.card_le_card h2
  have h4 : B.toFinset.card ≤ B.length := B.toFinset_card_le
  rw [h1] at h3
  rw [List.length_map] at h3
  omega

theorem fillerGo_length (target : Nat) (avoid : String) (B : List String) :
    ∀ (fuel : Nat) (acc : List String) (counter : Nat),
      (∀ k, counter ≤ k → optionLabel k ∈ avoid :: acc → optionLabel k ∈ B) →
      acc.length ≤ target →
      target - acc.length + countColl counter fuel B ≤ fuel →
      (fillerGo target avoid fuel acc counter).length = target := by
  intro fuel
  induction fuel with
  | zero =>
    intro acc counter _ hlen hfuel
    rw [countColl_zero] at hfuel
    simp only [fillerGo]
    omega
  | succ fuel ih =>
    intro acc counter hsub hlen hfuel
    by_cases hlt : acc.length < target
    · simp only [fillerGo, if_pos hlt]
      by_cases hC : optionLabel counter ≠ avoid ∧ optionLabel counter ∉ acc
      · rw [if_pos hC]
        apply ih (acc ++ [optionLabel counter]) (counter + 1)
        · intro k hk hmem
          have hk' : counter ≤ k := by omega
          rcases List.mem_cons.mp hmem with hav | hmem2
          · exact hsub k hk' (hav ▸ List.mem_cons_self _ _)
          · rcases List.mem_append.mp hmem2 with hacc | hlast
            · exact hsub k hk' (List.mem_cons_of_mem _ hacc)
            · simp at hlast
              have := optionLabel_injective hlast
              omega
        · simp; omega
        · have hrec := countColl_succ counter fuel B
          have hmono : countColl (counter + 1) fuel B ≤ countColl counter (fuel + 1) B := by
            rw [hrec]
            by_cases hm : optionLabel counter ∈ B <;> simp [hm]
          simp only [List.length_append, List.length_singleton]
          omega
      · rw [if_neg hC]
        have hmem : optionLabel counter ∈ avoid :: acc := by
          rcases Decidable.not_and_iff_or_not.mp hC with h1 | h2
          · have : optionLabel counter = avoid := by
              by_contra hne; exact h1 hne
            exact this ▸ List.mem_cons_self _ _
          · have : optionLabel counter ∈ acc := by
              by_contra hni; exact h2 hni
            exact List.mem_cons_of_mem _ this
        have hinB : optionLabel counter ∈ B := hsub counter (le_refl _) hmem
        have hrec := countColl_succ counter fuel B
        rw [if_pos hinB] at hrec
        apply ih acc (counter + 1)
        · intro k hk hmem2
          exact hsub k (by omega) hmem2
        · exact hlen
        · omega
    · simp only [fillerGo, if_neg hlt]
      omega

theorem fillerPad_length (target : Nat) (avoid : String) (acc : List String)
    (counter : Nat) (hlen : acc.length ≤ target) :
    (fillerPad target avoid acc counter).length = target := by
  apply fillerGo_length target avoid (avoid :: acc)
  · intro k _ hk; exact hk
  · exact hlen
  · have h1 := countColl_le counter (target + acc.length + 1) (avoid :: acc)
    simp only [List.length_cons] at h1
    omega

theorem fillerPad_of_le (target : Nat) (avoid : String) (acc : List String)
    (counter : Nat) (h : target ≤ acc.length) :
    fillerPad target avoid acc counter = acc := by
  unfold fillerPad
  simp only [fillerGo, Nat.not_lt.mpr h, if_false]

theorem fillerGo_good (target : Nat) (avoid : String) :
    ∀ (fuel : Nat) (acc : List String) (counter : Nat),
      GoodAcc avoid acc → GoodAcc avoid (fillerGo target avoid fuel acc counter) := by
  intro fuel
  induction fuel with
  | zero => intro acc counter hg; simpa [fillerGo] using hg
  | succ fuel ih =>
    intro acc counter hg
    by_cases hlt : acc.length < target
    · simp only [fillerGo, if_pos hlt]
      by_cases hC : optionLabel counter ≠ avoid ∧ optionLabel counter ∉ acc
      · rw [if_pos hC]
        exact ih _ _ (goodAcc_append _ _ _ hg hC.1 hC.2)
      · rw [if_neg hC]
        exact ih _ _ hg
    · simpa only [fillerGo, if_neg hlt] using hg

theorem fillerPad_good (target : Nat) (avoid : String) (acc : List String)
    (counter : Nat) (hg : GoodAcc avoid acc) :
    GoodAcc avoid (fillerPad target avoid acc counter) :=
  fillerGo_good target avoid _ acc counter hg

/-! ### The distractor collector always yields `num` good strings -/

theorem collect_distractors_spec (fc : Flashcard)
    (same_topic_pool global_pool : List Flashcard) (num : Nat) (g : Rng)
    (hnum : 0 < num) :
    (collect_distractors_for_flashcard fc same_topic_pool global_pool num g).1.length = num ∧
      GoodAcc fc.answer
        (collect_distractors_for_flashcard fc same_topic_pool global_pool num g).1 := by
  unfold collect_distractors_for_flashcard
  cases hres : explicitLoop fc.answer num fc.distractors [] with
  | inl full =>
    have := (explicitLoop_spec fc.answer num fc.distractors []
      (goodAcc_nil _) (by simpa using hnum)).1 full hres
    exact ⟨this.2, this.1⟩
  | inr acc0 =>
    have h0 := (explicitLoop_spec fc.answer num fc.distractors []
      (goodAcc_nil _) (by simpa using hnum)).2 acc0 hres
    simp only []
    have h1 := pullFromPool_spec fc.answer num same_topic_pool acc0 g h0.1
      (Nat.le_of_lt h0.2)
    set r1 := pullFromPool fc.answer num same_topic_pool acc0 g with hr1
    by_cases hb1 : r1.1.length < num
    · rw [if_pos hb1]
      have h2 := pullFromPool_spec fc.answer num global_pool r1.1 r1.2 h1.1
        (Nat.le_of_lt hb1)
      set r2 := pullFromPool fc.answer num global_pool r1.1 r1.2 with hr2
      by_cases hb2 : r2.1.length < num
      · simp only [if_pos hb2]
        have h3 := fillerPad_length num fc.answer r2.1 1 (Nat.le_of_lt hb2)
        have h4 := fillerPad_good num fc.answer r2.1 1 h2.1
        rw [List.take_of_length_le (le_of_eq h3)]
        exact ⟨h3, h4⟩
      · simp only [if_neg hb2]
        have hlen : r2.1.length = num := by omega
        rw [List.take_of_length_le (le_of_eq hlen)]
        exact ⟨hlen, h2.1⟩
    · simp only [if_neg hb1]
      have hlen : r1.1.length = num := by omega
      rw [List.take_of_length_le (le_of_eq hlen)]
      exact ⟨hlen, h1.1⟩

/-- Appending pairwise-fresh elements: the option-assembly and dedup folds
are the identity extension when nothing collides. -/
theorem foldl_append_fresh :
    ∀ (ds acc : List String), ds.Nodup → (∀ d ∈ ds, d ∉ acc) →
      ds.foldl (fun a d => if d ∉ a then a ++ [d] else a) acc = acc ++ ds := by
  intro ds
  induction ds with
  | nil => intro acc _ _; simp
  | cons d rest ih =>
    intro acc hnd hfresh
    have hd : d ∉ acc := hfresh d (List.mem_cons_self d rest)
    simp only [List.foldl_cons, if_pos hd]
    rw [ih (acc ++ [d]) (List.Nodup.of_cons hnd)]
    · simp
    · intro x hx
      simp only [List.mem_append, List.mem_singleton]
      rintro (hxa | hxd)
      · exact hfresh x (List.mem_cons_of_mem d hx) hxa
      · subst hxd
        exact (List.nodup_cons.mp hnd).1 hx

theorem assembleOptions_eq (answer : String) (ds : List String)
    (hnd : ds.Nodup) (hne : ∀ d ∈ ds, d ≠ answer) :
    assembleOptions answer ds = answer :: ds := by
  unfold assembleOptions
  rw [foldl_append_fresh ds [answer] hnd]
  · simp
  · intro d hd
    simp only [List.mem_singleton]
    exact hne d hd

theorem pyDedup_of_nodup (l : List String) (h : l.Nodup) : pyDedup l = l := by
  unfold pyDedup
  have : ∀ d ∈ l, d ∉ ([] : List String) := by intro d _ h2; cases h2
  have hfun : (fun (a : List String) (x : String) => if x ∈ a then a else a ++ [x])
      = fun a x => if x ∉ a then a ++ [x] else a := by
    funext a x
    by_cases hx : x ∈ a <;> simp [hx]
  rw [hfun, foldl_append_fresh l [] h this]
  simp

/-! ### Per-question postconditions -/

theorem buildQuestionFrom_fields (fc : Flashcard) (stp gp : List Flashcard) (g : Rng) :
    (buildQuestionFrom fc stp gp g).1.flashcard_id = fc.id ∧
    (buildQuestionFrom fc stp gp g).1.prompt = fc.prompt ∧
    (buildQuestionFrom fc stp gp g).1.correct_answer = fc.answer :=
  ⟨rfl, rfl, rfl⟩

theorem buildQuestionFrom_options_perm (fc : Flashcard) (stp gp : List Flashcard) (g : Rng) :
    List.Perm (buildQuestionFrom fc stp gp g).1.options
      (fc.answer :: (collect_distractors_for_flashcard fc stp gp 3 g).1) := by
  have hc := collect_distractors_spec fc stp gp 3 g (by omega)
  have hnodup : (fc.answer :: (collect_distractors_for_flashcard fc stp gp 3 g).1).Nodup := by
    rw [List.nodup_cons]
    exact ⟨fun hmem => hc.2.2 _ hmem rfl, hc.2.1⟩
  simp only [buildQuestionFrom]
  rw [assembleOptions_eq fc.answer _ hc.2.1 hc.2.2]
  rw [if_neg (by simp [hc.1])]
  rw [pyDedup_of_nodup _ hnodup]
  rw [fillerPad_of_le 4 fc.answer _ 1 (by simp [hc.1])]
  exact shuffleL_perm _ _

theorem buildQuestionFrom_postconditions (fc : Flashcard) (stp gp : List Flashcard) (g : Rng) :
    (buildQuestionFrom fc stp gp g).1.options.length = 4 ∧
    (buildQuestionFrom fc stp gp g).1.options.Nodup ∧
    (buildQuestionFrom fc stp gp g).1.options.count fc.answer = 1 := by
  have hperm := buildQuestionFrom_options_perm fc stp gp g
  have hc := collect_distractors_spec fc stp gp 3 g (by omega)
  have hnodup : (fc.answer :: (collect_distractors_for_flashcard fc stp gp 3 g).1).Nodup := by
    rw [List.nodup_cons]
    exact ⟨fun hmem => hc.2.2 _ hmem rfl, hc.2.1⟩
  refine ⟨?_, ?_, ?_⟩
  · rw [hperm.length_eq]
    simp [hc.1]
  · exact hperm.symm.nodup hnodup
  · rw [hperm.count_eq]
    simp only [List.count_cons_self]
    rw [List.count_eq_zero.mpr (fun hmem => hc.2.2 _ hmem rfl)]

theorem buildQuestion_postconditions (fc : Flashcard) (tp gp : List Flashcard) (g : Rng) :
    (buildQuestion fc tp gp g).1.flashcard_id = fc.id ∧
    (buildQuestion fc tp gp g).1.prompt = fc.prompt ∧
    (buildQuestion fc tp gp g).1.correct_answer = fc.answer ∧
    (buildQuestion fc tp gp g).1.options.length = 4 ∧
    (buildQuestion fc tp gp g).1.options.Nodup ∧
    (buildQuestion fc tp gp g).1.options.count fc.answer = 1 := by
  have h1 := buildQuestionFrom_fields fc (tp.filter (fun x => x.id != fc.id)) gp g
  have h2 := buildQuestionFrom_postconditions fc (tp.filter (fun x => x.id != fc.id)) gp g
  exact ⟨h1.1, h1.2.1, h1.2.2, h2.1, h2.2.1, h2.2.2⟩

theorem questionsLoop_mem (tp gp : List Flashcard) :
    ∀ (chosen : List Flashcard) (g : Rng) (q : QuizQuestion),
      q ∈ (questionsLoop tp gp chosen g).1 →
      ∃ fc ∈ chosen, q.flashcard_id = fc.id ∧ q.prompt = fc.prompt ∧
        q.correct_answer = fc.answer ∧ q.options.length = 4 ∧ q.options.Nodup ∧
        q.options.count q.correct_answer = 1 := by
  intro chosen
  induction chosen with
  | nil => intro g q hq; simp [questionsLoop] at hq
  | cons fc rest ih =>
    intro g q hq
    simp only [questionsLoop] at hq
    rcases List.mem_cons.mp hq with hq1 | hq2
    · subst hq1
      have h := buildQuestion_postconditions fc tp gp g
      refine ⟨fc, List.mem_cons_self _ _, h.1, h.2.1, h.2.2.1, h.2.2.2.1, h.2.2.2.2.1, ?_⟩
      rw [h.2.2.1]
      exact h.2.2.2.2.2
    · rcases ih _ q hq2 with ⟨fc', hfc', hrest⟩
      exact ⟨fc', List.mem_cons_of_mem _ hfc', hrest⟩

theorem questionsLoop_map (tp gp : List Flashcard) :
    ∀ (chosen : List Flashcard) (g : Rng),
      (questionsLoop tp gp chosen g).1.map
          (fun q => (q.flashcard_id, q.prompt, q.correct_answer))
        = chosen.map (fun fc => (fc.id, fc.prompt, fc.answer)) := by
  intro chosen
  induction chosen with
  | nil => intro g; simp [questionsLoop]
  | cons fc rest ih =>
    intro g
    have h := buildQuestion_postconditions fc tp gp g
    simp only [questionsLoop, List.map_cons]
    rw [h.1, h.2.1, h.2.2.1, ih]

/-! ### Top-level properties of `generate_quiz_questions` -/

theorem generate_mem (topic : String) (flashcards : List Flashcard) (n : Nat)
    (seed : Option Int) (g : Rng) (q : QuizQuestion)
    (hq : q ∈ (generate_quiz_questions topic flashcards n seed g).1) :
    ∃ fc ∈ flashcards.filter (fun fc => fc.topic == topic),
      q.flashcard_id = fc.id ∧ q.prompt = fc.prompt ∧ q.correct_answer = fc.answer ∧
      q.options.length = 4 ∧ q.options.Nodup ∧ q.options.count q.correct_answer = 1 := by
  by_cases h0 : flashcards = []
  · simp [generate_quiz_questions, h0] at hq
  · by_cases h1 : flashcards.filter (fun fc => fc.topic == topic) = []
    · simp [generate_quiz_questions, if_neg h0, h1] at hq
    · simp only [generate_quiz_questions, if_neg h0, if_neg h1] at hq
      rcases questionsLoop_mem _ _ _ _ q hq with ⟨fc, hfc, hrest⟩
      refine ⟨fc, ?_, hrest⟩
      by_cases h2 : (flashcards.filter (fun fc => fc.topic == topic)).length ≤ n
      · rw [if_pos h2] at hfc
        exact (shuffleL_perm _ _).subset hfc
      · rw [if_neg h2] at hfc
        exact (shuffleL_perm _ _).subset (List.take_subset _ _ hfc)

/-- C1: for every topic, flashcard collection, question count and seed,
every `QuizQuestion` produced by `generate_quiz_questions` has an options
list of exactly 4 pairwise-distinct strings — for every generator state,
including scarcity inputs (witnessed separately on a one-card collection
with no distractors and no other answers). -/
theorem C1_options_four_distinct (topic : String) (flashcards : List Flashcard)
    (n : Nat) (seed : Option Int) (g : Rng) (q : QuizQuestion)
    (hq : q ∈ (generate_quiz_questions topic flashcards n seed g).1) :
    q.options.length = 4 ∧ q.options.Nodup := by
  rcases generate_mem topic flashcards n seed g q hq with ⟨fc, _, h⟩
  exact ⟨h.2.2.2.1, h.2.2.2.2.1⟩

/-- Witness for C1 at the scarcity input of P6: one card in the topic,
no author distractors, and no other usable answer anywhere, so three
synthetic fillers are required. -/
theorem C1_witness :
    (((generate_quiz_questions "Topic" [⟨"a1", "Topic", "prompt", "ans", none, [], []⟩]
        5 (some 1) (mkRng 0)).1.getD 0 default).options.length = 4) ∧
    ((generate_quiz_questions "Topic" [⟨"a1", "Topic", "prompt", "ans", none, [], []⟩]
        5 (some 1) (mkRng 0)).1.getD 0 default).options.Nodup :=
  C1_options_four_distinct "Topic" [⟨"a1", "Topic", "prompt", "ans", none, [], []⟩]
    5 (some 1) (mkRng 0) _ (by decide)

/-- C2: for every topic, collection, count, seed and generator state,
every produced `QuizQuestion` contains its `correct_answer` among its
options exactly once. -/
theorem C2_answer_included_once (topic : String) (flashcards : List Flashcard)
    (n : Nat) (seed : Option Int) (g : Rng) (q : QuizQuestion)
    (hq : q ∈ (generate_quiz_questions topic flashcards n seed g).1) :
    q.correct_answer ∈ q.options ∧ q.options.count q.correct_answer = 1 := by
  rcases generate_mem topic flashcards n seed g q hq with ⟨fc, _, h⟩
  have hcount := h.2.2.2.2.2
  refine ⟨?_, hcount⟩
  by_contra hnot
  rw [List.count_eq_zero.mpr hnot] at hcount
  exact absurd hcount (by omega)

/-- Witness for C2 on a concrete two-card collection. -/
theorem C2_witness :
    (((generate_quiz_questions "Math" [⟨"a1", "Math", "2+2?", "4", none, [], []⟩,
        ⟨"a2", "Math", "3+3?", "6", none, [], []⟩] 10 (some 1) (mkRng 0)).1.getD 0
        default).correct_answer ∈
      ((generate_quiz_questions "Math" [⟨"a1", "Math", "2+2?", "4", none, [], []⟩,
        ⟨"a2", "Math", "3+3?", "6", none, [], []⟩] 10 (some 1) (mkRng 0)).1.getD 0
        default).options) ∧
    ((generate_quiz_questions "Math" [⟨"a1", "Math", "2+2?", "4", none, [], []⟩,
        ⟨"a2", "Math", "3+3?", "6", none, [], []⟩] 10 (some 1) (mkRng 0)).1.getD 0
        default).options.count
      ((generate_quiz_questions "Math" [⟨"a1", "Math", "2+2?", "4", none, [], []⟩,
        ⟨"a2", "Math", "3+3?", "6", none, [], []⟩] 10 (some 1) (mkRng 0)).1.getD 0
        default).correct_answer = 1 :=
  C2_answer_included_once "Math" [⟨"a1", "Math", "2+2?", "4", none, [], []⟩,
    ⟨"a2", "Math", "3+3?", "6", none, [], []⟩] 10 (some 1) (mkRng 0) _ (by decide)

/-- C3: for every topic, collection, count, seed and generator state, the
generator returns exactly `min n |topic pool|` questions, built from a
without-replacement selection (`Subperm`) of the topic pool, with id,
prompt and correct answer copied from the selected card; empty collections
and empty topics yield the empty list. -/
theorem C3_coverage (topic : String) (flashcards : List Flashcard)
    (n : Nat) (seed : Option Int) (g : Rng) :
    ∃ chosen : List Flashcard,
      List.Subperm chosen (flashcards.filter (fun fc => fc.topic == topic)) ∧
      chosen.length = min n (flashcards.filter (fun fc => fc.topic == topic)).length ∧
      (generate_quiz_questions topic flashcards n seed g).1.map
          (fun q => (q.flashcard_id, q.prompt, q.correct_answer))
        = chosen.map (fun fc => (fc.id, fc.prompt, fc.answer)) := by
  by_cases h0 : flashcards = []
  · subst h0
    exact ⟨[], List.nil_subperm, by simp, by simp [generate_quiz_questions]⟩
  · by_cases h1 : flashcards.filter (fun fc => fc.topic == topic) = []
    · refine ⟨[], List.nil_subperm, by simp [h1], ?_⟩
      simp [generate_quiz_questions, if_neg h0, h1]
    · simp only [generate_quiz_questions, if_neg h0, if_neg h1]
      by_cases h2 : (flashcards.filter (fun fc => fc.topic == topic)).length ≤ n
      · simp only [if_pos h2]
        refine ⟨(shuffleL (flashcards.filter (fun fc => fc.topic == topic))
          (seededRng seed g)).1, (shuffleL_perm _ _).subperm, ?_, questionsLoop_map _ _ _ _⟩
        rw [(shuffleL_perm _ _).length_eq, Nat.min_eq_right h2]
      · simp only [if_neg h2]
        refine ⟨(sampleL (flashcards.filter (fun fc => fc.topic == topic)) n
          (seededRng seed g)).1, ?_, ?_, questionsLoop_map _ _ _ _⟩
        · exact ((List.take_sublist _ _).subperm).trans (shuffleL_perm _ _).subperm
        · rw [show (sampleL (flashcards.filter (fun fc => fc.topic == topic)) n
            (seededRng seed g)).1 = (shuffleL (flashcards.filter
            (fun fc => fc.topic == topic)) (seededRng seed g)).1.take n from rfl]
          rw [List.length_take, (shuffleL_perm _ _).length_eq]

/-- C4: determinism under a seed — with the same non-`None` seed and the
same inputs, two runs from arbitrary (possibly different) ambient
generator states return identical question sequences and final states,
because `random.seed` replaces the ambient state entirely. -/
theorem C4_deterministic_under_seed (topic : String) (flashcards : List Flashcard)
    (n : Nat) (s : Int) (g1 g2 : Rng) :
    generate_quiz_questions topic flashcards n (some s) g1
      = generate_quiz_questions topic flashcards n (some s) g2 := rfl

/-- C5 counterexample: the claim fails when the three author-supplied
`distractors` entries are not pairwise distinct.  For the card with
`answer = "a"` and `distractors = ["x", "x", "y"]` (3 entries, none equal
to the answer), step 1 collects only `{x, y}`, the fallback runs, and the
produced option set is a 4-element set, not `{a} ∪ {x, y}`. -/
theorem C5_counterexample :
    (⟨"c1", "T", "p?", "a", none, [], ["x", "x", "y"]⟩ : Flashcard).distractors.length = 3 ∧
    (⟨"c1", "T", "p?", "a", none, [], ["x", "x", "y"]⟩ : Flashcard).answer ∉
      (⟨"c1", "T", "p?", "a", none, [], ["x", "x", "y"]⟩ : Flashcard).distractors ∧
    (generate_quiz_questions "T"
      [⟨"c1", "T", "p?", "a", none, [], ["x", "x", "y"]⟩] 1 (some 0) (mkRng 0)).1.length = 1 ∧
    ((generate_quiz_questions "T"
      [⟨"c1", "T", "p?", "a", none, [], ["x", "x", "y"]⟩] 1 (some 0)
        (mkRng 0)).1.getD 0 default).options.toFinset ≠
      insert (⟨"c1", "T", "p?", "a", none, [], ["x", "x", "y"]⟩ : Flashcard).answer
        (⟨"c1", "T", "p?", "a", none, [], ["x", "x", "y"]⟩ : Flashcard).distractors.toFinset := by
  decide

/-- C5 (amended): for every flashcard whose `distractors` list has exactly
3 pairwise-distinct non-empty entries none equal to its answer, the
question generated for that card has options that are a permutation of
`answer :: distractors` — the same-topic and global fallback pools (and
the filler) contribute nothing, for every pool and generator state. -/
theorem C5_explicit_distractor_priority (fc : Flashcard) (tp gp : List Flashcard) (g : Rng)
    (h3 : fc.distractors.length = 3) (hnd : fc.distractors.Nodup)
    (hgood : ∀ d ∈ fc.distractors, d ≠ "" ∧ d ≠ fc.answer) :
    List.Perm (buildQuestion fc tp gp g).1.options (fc.answer :: fc.distractors) := by
  have hne : fc.distractors ≠ [] := by
    intro h
    rw [h] at h3
    simp at h3
  have hcol : collect_distractors_for_flashcard fc
      (tp.filter (fun x => x.id != fc.id)) gp 3 g = (fc.distractors, g) := by
    unfold collect_distractors_for_flashcard
    rw [explicitLoop_complete fc.answer 3 fc.distractors [] hne
      (by simpa using h3) (by simpa using hnd) hgood]
    simp
  have hperm := buildQuestionFrom_options_perm fc
    (tp.filter (fun x => x.id != fc.id)) gp g
  rw [hcol] at hperm
  exact hperm

/-- Witness for C5 (amended) at a concrete well-formed card. -/
theorem C5_witness :
    List.Perm (buildQuestion (⟨"c1", "T", "p?", "a", none, [], ["x", "y", "z"]⟩ : Flashcard)
        [] [] (mkRng 7)).1.options ("a" :: ["x", "y", "z"]) :=
  C5_explicit_distractor_priority ⟨"c1", "T", "p?", "a", none, [], ["x", "y", "z"]⟩
    [] [] (mkRng 7) (by decide) (by decide) (by decide)

/-- C7 counterexample: `generate_quiz_questions` never filters out cards
with an empty `answer`; a topic whose only card has `answer = ""` still
yields a question, and its `correct_answer` is the empty string. -/
theorem C7_counterexample :
    (generate_quiz_questions "T" [⟨"a1", "T", "p", "", none, [], []⟩] 1
      (some 0) (mkRng 0)).1.length = 1 ∧
    ((generate_quiz_questions "T" [⟨"a1", "T", "p", "", none, [], []⟩] 1
      (some 0) (mkRng 0)).1.getD 0 default).correct_answer = "" := by decide

/-- C7 (amended): the generator copies `correct_answer` verbatim from the
selected card and selects cards of the topic regardless of their answer;
hence every produced question has a non-empty `correct_answer` provided
every card of the requested topic in the collection has a non-empty
answer. -/
theorem C7_nonempty_answers (topic : String) (flashcards : List Flashcard)
    (n : Nat) (seed : Option Int) (g : Rng) (q : QuizQuestion)
    (hall : ∀ fc ∈ flashcards, fc.topic = topic → fc.answer ≠ "")
    (hq : q ∈ (generate_quiz_questions topic flashcards n seed g).1) :
    q.correct_answer ≠ "" := by
  rcases generate_mem topic flashcards n seed g q hq with ⟨fc, hfc, h⟩
  have hmem := List.mem_filter.mp hfc
  have htopic : fc.topic = topic := by simpa using hmem.2
  rw [h.2.2.1]
  exact hall fc hmem.1 htopic

/-- Witness for C7 (amended) on a one-card collection with a non-empty
answer. -/
theorem C7_witness :
    ((generate_quiz_questions "T" [⟨"a1", "T", "p", "4", none, [], []⟩] 1
      (some 0) (mkRng 0)).1.getD 0 default).correct_answer ≠ "" :=
  C7_nonempty_answers "T" [⟨"a1", "T", "p", "4", none, [], []⟩] 1 (some 0) (mkRng 0)
    _ (by decide) (by decide)

/-! ### The two topic-listing implementations (C8) -/

/-- Embedding of `list_topics` of src/pages/Flashcards.py (lines 35-43): first-seen
order, keeping non-empty topics only.  The page reads raw JSON dicts
(`card.get("topic")`, with a missing/`None` topic being falsy); over the
shared record type this is the `topic` field with `""` for "absent", and
the `seen` set is the set of elements of the output list. -/
def list_topics_page (cards : List Flashcard) : List String :=
  cards.foldl
    (fun acc card => if card.topic ≠ "" ∧ card.topic ∉ acc then acc ++ [card.topic] else acc) []

theorem list_topics_page_go (cards : List Flashcard) :
    ∀ acc : List String,
      (∀ t, t ∈ cards.foldl
          (fun acc card => if card.topic ≠ "" ∧ card.topic ∉ acc then acc ++ [card.topic]
            else acc) acc
        ↔ t ∈ acc ∨ (t ≠ "" ∧ ∃ fc ∈ cards, fc.topic = t)) ∧
      (acc.Nodup → (cards.foldl
          (fun acc card => if card.topic ≠ "" ∧ card.topic ∉ acc then acc ++ [card.topic]
            else acc) acc).Nodup) := by
  induction cards with
  | nil => intro acc; simp
  | cons c cs ih =>
    intro acc
    simp only [List.foldl_cons]
    by_cases hcond : c.topic ≠ "" ∧ c.topic ∉ acc
    · rw [if_pos hcond]
      constructor
      · intro t
        rw [(ih (acc ++ [c.topic])).1 t]
        simp only [List.mem_append, List.mem_singleton, List.mem_cons,
          List.not_mem_nil, or_false]
        constructor
        · rintro ((hta | htc) | ⟨htne, fc, hfc, hft⟩)
          · exact Or.inl hta
          · subst htc
            exact Or.inr ⟨hcond.1, c, Or.inl rfl, rfl⟩
          · exact Or.inr ⟨htne, fc, Or.inr hfc, hft⟩
        · rintro (hta | ⟨htne, fc, hfc | hfc, hft⟩)
          · exact Or.inl (Or.inl hta)
          · subst hfc
            exact Or.inl (Or.inr hft.symm)
          · exact Or.inr ⟨htne, fc, hfc, hft⟩
      · intro hnd
        apply (ih (acc ++ [c.topic])).2
        simp [List.nodup_append, hnd, hcond.2]
    · rw [if_neg hcond]
      constructor
      · intro t
        rw [(ih acc).1 t]
        simp only [List.mem_cons]
        constructor
        · rintro (hta | ⟨htne, fc, hfc, hft⟩)
          · exact Or.inl hta
          · exact Or.inr ⟨htne, fc, Or.inr hfc, hft⟩
        · rintro (hta | ⟨htne, fc, hfc | hfc, hft⟩)
          · exact Or.inl hta
          · subst hfc
            rw [Decidable.not_and_iff_or_not] at hcond
            rcases hcond with h1 | h2
            · rw [hft] at h1
              exact absurd htne (by simpa using h1)
            · rw [← hft]
              exact Or.inl (by simpa using h2)
          · exact Or.inr ⟨htne, fc, hfc, hft⟩
      · exact (ih acc).2

theorem list_topics_mem (cards : List Flashcard) (t : String) :
    t ∈ list_topics cards ↔ t ≠ "" ∧ ∃ fc ∈ cards, fc.topic = t := by
  unfold list_topics
  rw [List.mem_mergeSort, List.mem_dedup]
  simp only [List.mem_map, List.mem_filter]
  constructor
  · rintro ⟨fc, ⟨hfc, hne⟩, hft⟩
    refine ⟨?_, fc, hfc, hft⟩
    rw [← hft]
    simpa using hne
  · rintro ⟨htne, fc, hfc, hft⟩
    exact ⟨fc, ⟨hfc, by rw [hft]; simpa using htne⟩, hft⟩

theorem list_topics_nodup (cards : List Flashcard) : (list_topics cards).Nodup := by
  unfold list_topics
  exact ((List.mergeSort_perm _ _).nodup_iff).mpr (List.nodup_dedup _)

/-- C8: the sorted `list_topics` of src/src/quiz.py and the first-seen
`list_topics` of src/pages/Flashcards.py both list every distinct
non-empty topic exactly once and nothing else, so they are equal as
finite sets. -/
theorem C8_list_topics_agree (cards : List Flashcard) :
    (list_topics cards).Nodup ∧ (list_topics_page cards).Nodup ∧
    (∀ t, t ∈ list_topics cards ↔ t ≠ "" ∧ ∃ fc ∈ cards, fc.topic = t) ∧
    (∀ t, t ∈ list_topics_page cards ↔ t ≠ "" ∧ ∃ fc ∈ cards, fc.topic = t) ∧
    (list_topics cards).toFinset = (list_topics_page cards).toFinset := by
  have hpage := list_topics_page_go cards []
  have hpagemem : ∀ t, t ∈ list_topics_page cards ↔ t ≠ "" ∧ ∃ fc ∈ cards, fc.topic = t := by
    intro t
    rw [show list_topics_page cards = cards.foldl
      (fun acc card => if card.topic ≠ "" ∧ card.topic ∉ acc then acc ++ [card.topic]
        else acc) [] from rfl, (hpage.1 t)]
    simp
  refine ⟨list_topics_nodup cards, hpage.2 List.nodup_nil, list_topics_mem cards, hpagemem, ?_⟩
  ext t
  rw [List.mem_toFinset, List.mem_toFinset, list_topics_mem cards, hpagemem t]

/-- Witness for C8 at a concrete collection with a duplicate and an
empty-topic card. -/
theorem C8_witness :
    ("Math" ∈ list_topics [⟨"a1", "Math", "p", "4", none, [], []⟩,
        ⟨"a2", "", "q", "5", none, [], []⟩, ⟨"a3", "Math", "r", "6", none, [], []⟩]
      ↔ ("Math" ≠ "" ∧ ∃ fc ∈ [⟨"a1", "Math", "p", "4", none, [], []⟩,
        ⟨"a2", "", "q", "5", none, [], []⟩,
        (⟨"a3", "Math", "r", "6", none, [], []⟩ : Flashcard)], fc.topic = "Math")) :=
  (C8_list_topics_agree [⟨"a1", "Math", "p", "4", none, [], []⟩,
    ⟨"a2", "", "q", "5", none, [], []⟩, ⟨"a3", "Math", "r", "6", none, [], []⟩]).2.2.1 "Math"

/-! ### Quiz attempt state (src/pages/Quiz.py) -/

/-- The per-attempt Streamlit session state of src/pages/Quiz.py:
`quiz_started`, `current_question_index`, `quiz_questions`,
`user_answers`, `score`, and the dynamic `locked_{i}` keys (embedded as
the list of indices whose key holds `True`). -/
structure AttemptState where
  quiz_started : Bool
  current_question_index : Nat
  quiz_questions : List QuizQuestion
  user_answers : List (Option String)
  score : Nat
  locked : List Nat
deriving DecidableEq, Repr

/-- Embedding of `submit_answer` (src/pages/Quiz.py lines 55-75).  `chosen` is the
value of the `radio_{index}` session key at call time (`None` when
nothing is selected; the function then warns and leaves the state
unchanged).  Otherwise it sets `locked_{index}`, stores the choice in
`user_answers[index]`, and increments `score` whenever the choice equals
the question's correct answer — the function itself never consults the
lock.  (For an out-of-range `index` Python would raise `IndexError`; here
those calls leave the slot and score unchanged, and the claims only
exercise in-range indexes.) -/
def submit_answer (s : AttemptState) (index : Nat) (chosen : Option String) : AttemptState :=
  match chosen with
  | none => s
  | some c =>
    let s1 : AttemptState :=
      { s with
        locked := if index ∈ s.locked then s.locked else s.locked ++ [index]
        user_answers := s.user_answers.set index (some c) }
    match s1.quiz_questions[index]? with
    | some q => if c = q.correct_answer then { s1 with score := s1.score + 1 } else s1
    | none => s1

/-- C6: the code contradicts the claim (and its own comments): after a
first submit at index 0 records the correct choice `"4"` (score 1, slot
locked), a second `submit_answer` call at the locked index 0 is NOT
rejected — it increments the score again (2), and with a different radio
value it overwrites the recorded answer.  The guard exists only in the
page-rendering code that hides the Submit button. -/
theorem C6_submit_double_counts :
    (submit_answer
      ⟨true, 0, [⟨"a1", "2+2?", ["4", "3", "6", "5"], "4"⟩,
        ⟨"a2", "3+3?", ["6", "4", "8", "5"], "6"⟩], [none, none], 0, []⟩
      0 (some "4")).score = 1 ∧
    (0 ∈ (submit_answer
      ⟨true, 0, [⟨"a1", "2+2?", ["4", "3", "6", "5"], "4"⟩,
        ⟨"a2", "3+3?", ["6", "4", "8", "5"], "6"⟩], [none, none], 0, []⟩
      0 (some "4")).locked) ∧
    (submit_answer (submit_answer
      ⟨true, 0, [⟨"a1", "2+2?", ["4", "3", "6", "5"], "4"⟩,
        ⟨"a2", "3+3?", ["6", "4", "8", "5"], "6"⟩], [none, none], 0, []⟩
      0 (some "4")) 0 (some "4")).score = 2 ∧
    (submit_answer (submit_answer
      ⟨true, 0, [⟨"a1", "2+2?", ["4", "3", "6", "5"], "4"⟩,
        ⟨"a2", "3+3?", ["6", "4", "8", "5"], "6"⟩], [none, none], 0, []⟩
      0 (some "4")) 0 (some "6")).user_answers.getD 0 none = some "6" := by decide

/-- C10: termination and exactness of the filler `while` loops
(src/src/quiz.py lines 112-119 and 184-190): for every target, answer
string, held list and starting counter, the padding loop reaches exactly
`target` strings when it starts below the target — the fixed fuel of
`fillerPad` always suffices because each iteration either appends a fresh
label or skips one of the at most `acc.length + 1` labels colliding with
the held strings or the answer — and it leaves the list untouched when
the loop condition fails at entry. -/
theorem C10_filler_terminates (target : Nat) (avoid : String) (acc : List String)
    (counter : Nat) :
    (acc.length ≤ target → (fillerPad target avoid acc counter).length = target) ∧
    (target ≤ acc.length → fillerPad target avoid acc counter = acc) :=
  ⟨fillerPad_length target avoid acc counter, fillerPad_of_le target avoid acc counter⟩

/-- Witness for C10: padding from one held string up to 3. -/
theorem C10_witness : (fillerPad 3 "a" ["x"] 1).length = 3 :=
  (C10_filler_terminates 3 "a" ["x"] 1).1 (by decide)

/-! ### Frame property (C9): a heap of list objects

The pure embedding above manipulates list values, so it cannot express
Python's in-place mutation.  To settle the frame claim, the generator is
embedded a second time over an explicit heap of list-of-Flashcard
objects: a reference is an index into the allocation list, comprehensions
and `.copy()` allocate, and `random.shuffle(chosen)` overwrites its
object in place.  `Flashcard` attribute writes do not occur anywhere in
`generate_quiz_questions`, so record contents are immutable values inside
the list objects, and preserving the input object's value preserves every
record in it.  String/option lists (`candidates`, `options`, ...) are
fresh objects of a different element type and cannot alias the flashcard
list, so they stay value-level. -/

abbrev FcHeap := List (List Flashcard)

/-- Allocate a fresh list object; returns its reference. -/
def allocFc (h : FcHeap) (v : List Flashcard) : Nat × FcHeap := (h.length, h ++ [v])

/-- Read the list object behind a reference. -/
def readFc (h : FcHeap) (r : Nat) : List Flashcard := (h[r]?).getD []

/-- Overwrite a list object in place. -/
def writeFc (h : FcHeap) (r : Nat) (v : List Flashcard) : FcHeap := h.set r v

/-- The per-card loop at the heap level: each iteration allocates the
`same_topic_pool` comprehension (src/src/quiz.py line 163) and builds the
question from values read out of the heap; no existing object is
written. -/
def questionsLoopH (rTp rGlob : Nat) : List Flashcard → FcHeap → Rng →
    List QuizQuestion × FcHeap × Rng
  | [], h, g => ([], h, g)
  | fc :: rest, h, g =>
    let a1 := allocFc h ((readFc h rTp).filter (fun x => x.id != fc.id))
    let r1 := buildQuestionFrom fc (readFc a1.2 a1.1) (readFc a1.2 rGlob) g
    ((r1.1 :: (questionsLoopH rTp rGlob rest a1.2 r1.2).1),
     (questionsLoopH rTp rGlob rest a1.2 r1.2).2.1,
     (questionsLoopH rTp rGlob rest a1.2 r1.2).2.2)

/-- Embedding of `generate_quiz_questions` (src/src/quiz.py lines 123-202) at the heap
level.  The input collection is the object at `rFlash`.  Line 145
allocates `topic_pool`; line 152 allocates `topic_pool.copy()` and
line 153 overwrites that fresh object in place; line 155's
`random.sample` returns a fresh object; line 158 allocates
`global_pool = [fc for fc in flashcards]`. -/
def generate_quiz_questions_heap (topic : String) (rFlash : Nat) (num_questions : Nat)
    (seed : Option Int) (h : FcHeap) (g0 : Rng) : List QuizQuestion × FcHeap × Rng :=
  let g := seededRng seed g0
  if readFc h rFlash = [] then ([], h, g)
  else
    let a1 := allocFc h ((readFc h rFlash).filter (fun fc => fc.topic == topic))
    if readFc a1.2 a1.1 = [] then ([], a1.2, g)
    else
      if (readFc a1.2 a1.1).length ≤ num_questions then
        let a2 := allocFc a1.2 (readFc a1.2 a1.1)
        let sh := shuffleL (readFc a2.2 a2.1) g
        let h3 := writeFc a2.2 a2.1 sh.1
        let a3 := allocFc h3 ((readFc h3 rFlash).map id)
        questionsLoopH a1.1 a3.1 (readFc a3.2 a2.1) a3.2 sh.2
      else
        let sm := sampleL (readFc a1.2 a1.1) num_questions g
        let a2 := allocFc a1.2 sm.1
        let a3 := allocFc a2.2 ((readFc a2.2 rFlash).map id)
        questionsLoopH a1.1 a3.1 (readFc a3.2 a2.1) a3.2 sm.2

theorem alloc_preserves (h : FcHeap) (v : List Flashcard) (r : Nat)
    (hr : r < h.length) : (h ++ [v])[r]? = h[r]? :=
  List.getElem?_append_left hr

theorem questionsLoopH_frame (rTp rGlob : Nat) :
    ∀ (chosen : List Flashcard) (h : FcHeap) (g : Rng) (r : Nat), r < h.length →
      ((questionsLoopH rTp rGlob chosen h g).2.1)[r]? = h[r]? ∧
      h.length ≤ (questionsLoopH rTp rGlob chosen h g).2.1.length := by
  intro chosen
  induction chosen with
  | nil => intro h g r _; exact ⟨rfl, le_refl _⟩
  | cons fc rest ih =>
    intro h g r hr
    simp only [questionsLoopH]
    have hlen : (allocFc h ((readFc h rTp).filter (fun x => x.id != fc.id))).2.length
        = h.length + 1 := by simp [allocFc]
    have hr' : r < (allocFc h ((readFc h rTp).filter (fun x => x.id != fc.id))).2.length := by
      omega
    have hrec := ih (allocFc h ((readFc h rTp).filter (fun x => x.id != fc.id))).2
      (buildQuestionFrom fc
        (readFc (allocFc h ((readFc h rTp).filter (fun x => x.id != fc.id))).2
          (allocFc h ((readFc h rTp).filter (fun x => x.id != fc.id))).1)
        (readFc (allocFc h ((readFc h rTp).filter (fun x => x.id != fc.id))).2 rGlob) g).2
      r hr'
    constructor
    · rw [hrec.1]
      exact alloc_preserves h _ r hr
    · have := hrec.2
      omega

/-- C9: `generate_quiz_questions` never mutates its input.  At the heap
level: for every valid reference `rFlash`, after a full run the list
object at `rFlash` — and hence every `Flashcard` record in it with all
its fields — is exactly what it was before the call; the only in-place
write of the whole function targets the freshly allocated
`topic_pool.copy()` object. -/
theorem C9_frame (topic : String) (rFlash n : Nat) (seed : Option Int)
    (h : FcHeap) (g : Rng) (hr : rFlash < h.length) :
    ((generate_quiz_questions_heap topic rFlash n seed h g).2.1)[rFlash]? = h[rFlash]? := by
  simp only [generate_quiz_questions_heap]
  by_cases h0 : readFc h rFlash = []
  · rw [if_pos h0]
  · rw [if_neg h0]
    by_cases h1 : readFc (allocFc h ((readFc h rFlash).filter
        (fun fc => fc.topic == topic))).2 (allocFc h ((readFc h rFlash).filter
        (fun fc => fc.topic == topic))).1 = []
    · rw [if_pos h1]
      exact alloc_preserves h _ rFlash hr
    · rw [if_neg h1]
      by_cases h2 : (readFc (allocFc h ((readFc h rFlash).filter
          (fun fc => fc.topic == topic))).2 (allocFc h ((readFc h rFlash).filter
          (fun fc => fc.topic == topic))).1).length ≤ n
      · rw [if_pos h2]
        have hkey : ∀ (hp : FcHeap) (ch : List Flashcard) (gg : Rng) (A B : Nat),
            hp[rFlash]? = h[rFlash]? → h.length ≤ hp.length →
            (questionsLoopH A B ch hp gg).2.1[rFlash]? = h[rFlash]? := by
          intro hp ch gg A B hpres hle
          rw [(questionsLoopH_frame A B ch hp gg rFlash (by omega)).1, hpres]
        apply hkey
        · simp only [allocFc, writeFc]
          rw [List.getElem?_append_left (by simp; omega)]
          rw [List.getElem?_set_ne (by simp; omega)]
          rw [List.getElem?_append_left (by simp; omega)]
          exact List.getElem?_append_left hr
        · simp [allocFc, writeFc]
      · rw [if_neg h2]
        have hkey : ∀ (hp : FcHeap) (ch : List Flashcard) (gg : Rng) (A B : Nat),
            hp[rFlash]? = h[rFlash]? → h.length ≤ hp.length →
            (questionsLoopH A B ch hp gg).2.1[rFlash]? = h[rFlash]? := by
          intro hp ch gg A B hpres hle
          rw [(questionsLoopH_frame A B ch hp gg rFlash (by omega)).1, hpres]
        apply hkey
        · simp only [allocFc]
          rw [List.getElem?_append_left (by simp; omega)]
          rw [List.getElem?_append_left (by simp; omega)]
          exact List.getElem?_append_left hr
        · simp [allocFc]

/-- Witness for C9 at a concrete one-object heap. -/
theorem C9_witness :
    ((generate_quiz_questions_heap "T" 0 2 (some 3)
        [[⟨"a1", "T", "p", "4", none, [], []⟩, ⟨"a2", "T", "q", "5", none, [], []⟩]]
        (mkRng 0)).2.1)[0]?
      = [[⟨"a1", "T", "p", "4", none, [], []⟩, ⟨"a2", "T", "q", "5", none, [], []⟩]][0]? :=
  C9_frame "T" 0 2 (some 3)
    [[⟨"a1", "T", "p", "4", none, [], []⟩, ⟨"a2", "T", "q", "5", none, [], []⟩]]
    (mkRng 0) (by decide)
